import Mathlib

/-!
Shallow embedding of the thingpilot node_core_data_manager EEPROM filesystem
(src/DataManager.cpp, src/DataManager.h, src/filesystem/DataManager_FileSystem.h).

The storage medium is byte-addressable; the structural state keeps the
GlobalStats_t record, the file table (a list of File_t descriptors, one per
10-byte slot) and the raw data bytes as a map from address to byte.  The
storage driver (STM24256) is an external collaborator whose reads and writes
never fail in this model; every other control path of the C++ code is kept.
C `int` locals and parameters are modelled as Int (with Int.tdiv, which
truncates toward zero like C division); `uint16_t`/`uint8_t` stores truncate
modulo 2^16 / 2^8 exactly where the C code assigns to such a field.
-/

namespace DataManager_FileSystem

/-- 4 byte magic marking an initialised filesystem (DataManager_FileSystem.h). -/
def INITIALISED : Nat := 0b01101001010110101100110001011100

def FILE_TABLE_FULL : Nat := 20
def FILE_INVALID_NAME : Nat := 21
def FILE_ENTRY_LENGTH_MISMATCH : Nat := 30
def FILE_ENTRY_FULL : Nat := 31
def FILE_ENTRY_INVALID_INDEX : Nat := 32

/-- GlobalStats_t union: next_available_address and space_remaining are
uint16_t, initialised is uint32_t. -/
structure GlobalStats_t where
  next_available_address : Nat
  space_remaining : Nat
  initialised : Nat
deriving DecidableEq, Repr

/-- File_t union: four uint16_t fields followed by two uint8_t fields,
10 bytes when serialised. -/
structure File_t where
  length_bytes : Nat
  file_start_address : Nat
  file_end_address : Nat
  next_available_address : Nat
  filename : Nat
  valid : Nat
deriving DecidableEq, Repr

end DataManager_FileSystem

open DataManager_FileSystem

/-- Board configuration constants from DataManager.h. -/
def PAGES : Nat := 500
def PAGE_SIZE_BYTES : Nat := 64
def EEPROM_SIZE_BYTES : Nat := 32000
def GLOBAL_STATS_LENGTH : Nat := 8
def FILE_TABLE_PAGES : Nat := 4
def FILE_TABLE_START_ADDRESS : Nat := GLOBAL_STATS_LENGTH
def FILE_TABLE_LENGTH : Nat := PAGE_SIZE_BYTES * FILE_TABLE_PAGES - GLOBAL_STATS_LENGTH
def STORAGE_START_ADDRESS : Nat := FILE_TABLE_LENGTH + GLOBAL_STATS_LENGTH
def STORAGE_LENGTH : Nat := PAGES * PAGE_SIZE_BYTES - STORAGE_START_ADDRESS

def DATA_MANAGER_OK : Nat := 0

/-- sizeof(DataManager_FileSystem::File_t): 4 uint16_t + 2 uint8_t = 10 bytes. -/
def file_t_size : Nat := 10

/-- DataManager::get_max_files. -/
def get_max_files : Nat := FILE_TABLE_LENGTH / file_t_size

/-- DataManager::get_storage_size_bytes. -/
def get_storage_size_bytes : Nat := STORAGE_LENGTH

/-- Conversion of a C int expression to uint16_t (reduction modulo 2^16). -/
def u16ofInt (z : Int) : Nat := (z % 65536).toNat

/-- The all-zero descriptor a freshly zeroed file-table slot decodes to. -/
def zero_file : File_t := ⟨0, 0, 0, 0, 0, 0⟩

/-- Structural state of the persistent medium: the GlobalStats_t record, the
decoded file-table slots, and the raw bytes of the data region. -/
structure State where
  g_stats : GlobalStats_t
  table : List File_t
  data : Nat → Nat

/-- Raw storage read of len bytes starting at addr. -/
def readData (m : Nat → Nat) (addr len : Nat) : List Nat :=
  (List.range len).map (fun i => m (addr + i))

/-- Raw storage write of the given bytes starting at addr. -/
def writeData (m : Nat → Nat) (addr : Nat) (bs : List Nat) : Nat → Nat :=
  fun a => if addr ≤ a ∧ a < addr + bs.length then bs.getD (a - addr) 0 else m a

/-- The 8-bit rolling checksum the valid byte stores: sum of the non-valid
fields masked with 0xFF (DataManager.cpp, is_valid_file and every rewrite
of a descriptor). -/
def checksum8 (file : File_t) : Nat :=
  (file.filename + file.length_bytes + file.file_start_address +
   file.file_end_address + file.next_available_address) % 256

/-- DataManager::is_valid_file: a zero valid byte is never valid, otherwise
the valid byte must equal the checksum. -/
def is_valid_file (file : File_t) : Bool :=
  if file.valid = 0 then false
  else if file.valid ≠ checksum8 file then false
  else true

/-- Linear scan over the file-table slots returning the first slot (index and
content) satisfying the predicate; the shape shared by get_file_by_name,
modify_file and get_next_available_file_table_address. -/
def scan_file (p : File_t → Bool) : List File_t → Option (Nat × File_t)
  | [] => none
  | d :: rest =>
    if p d then some (0, d)
    else (scan_file p rest).map (fun x => (x.1 + 1, x.2))

/-- The predicate of the lookup loops: a valid slot whose filename matches. -/
def file_pred (filename : Nat) (d : File_t) : Bool :=
  is_valid_file d && (d.filename == filename)

/-- DataManager::get_global_stats (storage read always succeeds here). -/
def get_global_stats (s : State) : GlobalStats_t := s.g_stats

/-- DataManager::set_global_stats. -/
def set_global_stats (s : State) (g : GlobalStats_t) : State :=
  { s with g_stats := g }

/-- DataManager::get_file_by_name: first valid descriptor with the filename,
FILE_INVALID_NAME (here: none) when no slot matches. -/
def get_file_by_name (s : State) (filename : Nat) : Option File_t :=
  (scan_file (file_pred filename) s.table).map (fun x => x.2)

/-- DataManager::modify_file: re-locate the slot by filename and overwrite it
in place. -/
def modify_file (s : State) (filename : Nat) (file : File_t) : Nat × State :=
  match scan_file (file_pred filename) s.table with
  | none => (FILE_INVALID_NAME, s)
  | some (i, _) => (DATA_MANAGER_OK, { s with table := s.table.set i file })

/-- DataManager::init_filesystem: zero the file-table pages (4 pages of 64
bytes starting at address 8, which also clears bytes 248..263), then store a
fresh GlobalStats_t. -/
def init_filesystem (s : State) : Nat × State :=
  let data1 : Nat → Nat := fun a =>
    if FILE_TABLE_START_ADDRESS ≤ a ∧
       a < FILE_TABLE_START_ADDRESS + FILE_TABLE_PAGES * PAGE_SIZE_BYTES then 0
    else s.data a
  let g : GlobalStats_t :=
    { next_available_address := STORAGE_START_ADDRESS
      space_remaining := get_storage_size_bytes
      initialised := INITIALISED }
  (DATA_MANAGER_OK,
    set_global_stats
      { s with table := List.replicate get_max_files zero_file, data := data1 } g)

/-- DataManager::is_initialised: the C code assigns false on a magic mismatch
but then unconditionally assigns true before returning, so the second
assignment always wins. -/
def is_initialised (s : State) (initialised : Bool) : Nat × Bool :=
  let g := get_global_stats s
  -- the conditional false-assignment of the source is a dead store: the
  -- source unconditionally assigns true right after it
  let initialised := if g.initialised ≠ INITIALISED then false else initialised
  let initialised := (fun _ => true) initialised
  (DATA_MANAGER_OK, initialised)

/-- DataManager::add_file: bump-allocate requested_space bytes, persist the
updated global counters, then write the descriptor into the first invalid
slot.  The space check reuses FILE_TABLE_FULL; there is no separate
insufficient-space code. -/
def add_file (s : State) (file : File_t) (entries_to_store : Nat) : Nat × State :=
  let requested_space : Int := (entries_to_store : Int) * (file.length_bytes : Int)
  let g := get_global_stats s
  if requested_space > (g.space_remaining : Int) then (FILE_TABLE_FULL, s)
  else
    let f1 : File_t :=
      { file with
        file_start_address := g.next_available_address
        next_available_address := g.next_available_address
        file_end_address := u16ofInt ((g.next_available_address : Int) + requested_space - 1) }
    let gnext : Nat := u16ofInt ((f1.file_end_address : Int) + 1)
    let g1 : GlobalStats_t :=
      { g with
        next_available_address := gnext
        space_remaining := u16ofInt ((EEPROM_SIZE_BYTES : Int) - (gnext : Int)) }
    let s1 := set_global_stats s g1
    let f2 : File_t := { f1 with valid := checksum8 f1 }
    match scan_file (fun d => ! is_valid_file d) s1.table with
    | none => (FILE_TABLE_FULL, s1)
    | some (i, _) => (DATA_MANAGER_OK, { s1 with table := s1.table.set i f2 })

/-- The counting loop of DataManager::total_stored_files: the out-parameter
is incremented for every valid slot and never reset. -/
def count_valid_loop : List File_t → Int → Int
  | [], valid_files => valid_files
  | d :: rest, valid_files =>
    count_valid_loop rest (if is_valid_file d then valid_files + 1 else valid_files)

/-- DataManager::total_stored_files. -/
def total_stored_files (s : State) (valid_files : Int) : Nat × Int :=
  (DATA_MANAGER_OK, count_valid_loop s.table valid_files)

/-- The arithmetic of DataManager::get_total_written_file_entries, C int
division truncating toward zero. -/
def written_entries_of (file : File_t) : Int :=
  let remaining_length : Int :=
    ((file.file_end_address : Int) + 1) - (file.next_available_address : Int)
  let remaining_entries : Int := Int.tdiv remaining_length (file.length_bytes : Int)
  let total_entries : Int :=
    Int.tdiv (((file.file_end_address : Int) - (file.file_start_address : Int)) + 1)
      (file.length_bytes : Int)
  total_entries - remaining_entries

/-- DataManager::get_total_written_file_entries: the out-parameter is only
written on success. -/
def get_total_written_file_entries (s : State) (filename : Nat)
    (written_entries : Int) : Nat × Int :=
  match get_file_by_name s filename with
  | none => (FILE_INVALID_NAME, written_entries)
  | some file => (DATA_MANAGER_OK, written_entries_of file)

/-- DataManager::read_file_entry: note the index check precedes the length
check, and the read address is start + index * data_length reduced to
uint16_t. -/
def read_file_entry (s : State) (filename : Nat) (entry_index : Int)
    (data_length : Int) : Nat × List Nat :=
  match get_file_by_name s filename with
  | none => (FILE_INVALID_NAME, [])
  | some file =>
    let w := get_total_written_file_entries s filename 0
    if w.1 ≠ DATA_MANAGER_OK then (w.1, [])
    else if entry_index + 1 > w.2 then (FILE_ENTRY_INVALID_INDEX, [])
    else if data_length ≠ (file.length_bytes : Int) then (FILE_ENTRY_LENGTH_MISMATCH, [])
    else
      let address := u16ofInt ((file.file_start_address : Int) + entry_index * data_length)
      (DATA_MANAGER_OK, readData s.data address data_length.toNat)

/-- DataManager::append_file_entry: length check, bounds check, write the
data at the file cursor, advance the cursor, recompute the valid byte and
persist through modify_file. -/
def append_file_entry (s : State) (filename : Nat) (data : List Nat)
    (data_length : Int) : Nat × State :=
  match get_file_by_name s filename with
  | none => (FILE_INVALID_NAME, s)
  | some file =>
    if data_length ≠ (file.length_bytes : Int) then (FILE_ENTRY_LENGTH_MISMATCH, s)
    else if (data_length - 1) + (file.next_available_address : Int)
            > (file.file_end_address : Int) then (FILE_ENTRY_FULL, s)
    else
      let s1 := { s with
        data := writeData s.data file.next_available_address (data.take data_length.toNat) }
      let f1 : File_t := { file with
        next_available_address := u16ofInt ((file.next_available_address : Int) + data_length) }
      let f2 : File_t := { f1 with valid := checksum8 f1 }
      modify_file s1 filename f2

/-- DataManager::delete_file_entries: reset the cursor to the start address,
recompute the valid byte and persist. -/
def delete_file_entries (s : State) (filename : Nat) : Nat × State :=
  match get_file_by_name s filename with
  | none => (FILE_INVALID_NAME, s)
  | some file =>
    let f1 : File_t := { file with next_available_address := file.file_start_address }
    let f2 : File_t := { f1 with valid := checksum8 f1 }
    modify_file s filename f2

/-- DataManager::overwrite_file_entries: length check, write at the start
address (no bounds check against the file's capacity), reset the cursor to
start + data_length, recompute the valid byte and persist. -/
def overwrite_file_entries (s : State) (filename : Nat) (data : List Nat)
    (data_length : Int) : Nat × State :=
  match get_file_by_name s filename with
  | none => (FILE_INVALID_NAME, s)
  | some file =>
    if data_length ≠ (file.length_bytes : Int) then (FILE_ENTRY_LENGTH_MISMATCH, s)
    else
      let s1 := { s with
        data := writeData s.data file.file_start_address (data.take data_length.toNat) }
      let f1 : File_t := { file with
        next_available_address := u16ofInt ((file.file_start_address : Int) + data_length) }
      let f2 : File_t := { f1 with valid := checksum8 f1 }
      modify_file s1 filename f2

/-- The copying loop of DataManager::truncate_file: one read_file_entry and
one raw write per surviving entry, early return on a failing status. -/
def truncate_shift (filename : Nat) (length_bytes : Nat) (start : Nat) :
    Nat → Int → Int → State → Nat × State × Int
  | 0, _, new_index, s => (DATA_MANAGER_OK, s, new_index)
  | fuel + 1, current_index, new_index, s =>
    let r := read_file_entry s filename current_index (length_bytes : Int)
    if r.1 ≠ DATA_MANAGER_OK then (r.1, s, new_index)
    else
      let new_address := u16ofInt ((start : Int) + new_index * (length_bytes : Int))
      let s1 := { s with data := writeData s.data new_address r.2 }
      truncate_shift filename length_bytes start fuel (current_index + 1) (new_index + 1) s1

/-- DataManager::truncate_file: degrade to delete_file_entries when
entries_to_remove ≥ written_entries, otherwise shift the surviving entries
down, move the cursor and persist the descriptor. -/
def truncate_file (s : State) (filename : Nat) (entries_to_remove : Int) : Nat × State :=
  match get_file_by_name s filename with
  | none => (FILE_INVALID_NAME, s)
  | some file =>
    let w := get_total_written_file_entries s filename 0
    if w.1 ≠ DATA_MANAGER_OK then (w.1, s)
    else
      let written_entries := w.2
      if entries_to_remove ≥ written_entries then delete_file_entries s filename
      else
        let r := truncate_shift filename file.length_bytes file.file_start_address
          (written_entries - entries_to_remove).toNat entries_to_remove 0 s
        if r.1 ≠ DATA_MANAGER_OK then (r.1, r.2.1)
        else
          let f1 : File_t := { file with
            next_available_address :=
              u16ofInt ((file.file_start_address : Int) + r.2.2 * (file.length_bytes : Int)) }
          let f2 : File_t := { f1 with valid := checksum8 f1 }
          modify_file r.2.1 filename f2

/-! ## Basic facts about the embedding -/

lemma u16ofInt_of_lt {z : Int} (h0 : 0 ≤ z) (h1 : z < 65536) : u16ofInt z = z.toNat := by
  unfold u16ofInt
  omega

lemma u16ofInt_natCast {n : Nat} (h : n < 65536) : u16ofInt (n : Int) = n := by
  unfold u16ofInt
  omega

lemma readData_length (m : Nat → Nat) (addr len : Nat) :
    (readData m addr len).length = len := by
  simp [readData]

lemma readData_writeData_self (m : Nat → Nat) (addr : Nat) (bs : List Nat) :
    readData (writeData m addr bs) addr bs.length = bs := by
  apply List.ext_getElem
  · simp [readData]
  · intro i h1 h2
    simp only [readData, List.getElem_map, List.getElem_range]
    unfold writeData
    rw [if_pos (by omega)]
    have hidx : addr + i - addr = i := by omega
    rw [hidx, List.getD_eq_getElem]

lemma readData_writeData_disjoint (m : Nat → Nat) (a : Nat) (bs : List Nat)
    (b len : Nat) (h : a + bs.length ≤ b ∨ b + len ≤ a) :
    readData (writeData m a bs) b len = readData m b len := by
  apply List.ext_getElem
  · simp [readData]
  · intro i h1 h2
    have hi : i < len := by simpa [readData] using h2
    simp only [readData, List.getElem_map, List.getElem_range]
    unfold writeData
    rw [if_neg (by omega)]

lemma is_valid_file_iff (d : File_t) :
    is_valid_file d = true ↔ d.valid ≠ 0 ∧ d.valid = checksum8 d := by
  unfold is_valid_file
  by_cases h0 : d.valid = 0
  · simp [h0]
  · by_cases h1 : d.valid = checksum8 d
    · simp [h0, h1]
    · simp [h0, h1]

lemma is_valid_file_false_iff (d : File_t) :
    is_valid_file d = false ↔ d.valid = 0 ∨ d.valid ≠ checksum8 d := by
  rw [← Bool.not_eq_true, is_valid_file_iff]
  tauto

lemma checksum8_set_valid (f : File_t) (v : Nat) :
    checksum8 { f with valid := v } = checksum8 f := rfl

lemma is_valid_of_checksum_ne_zero (f : File_t) (h : checksum8 f ≠ 0) :
    is_valid_file { f with valid := checksum8 f } = true := by
  rw [is_valid_file_iff]
  exact ⟨h, rfl⟩

lemma zero_file_invalid : is_valid_file zero_file = false := by decide

/-! ## Scan and table lemmas -/

lemma scan_file_set {p : File_t → Bool} {t : List File_t} {i : Nat} {d : File_t}
    (h : scan_file p t = some (i, d)) (f : File_t) (hf : p f = true) :
    scan_file p (t.set i f) = some (i, f) := by
  induction t generalizing i with
  | nil => simp [scan_file] at h
  | cons a rest ih =>
    by_cases hp : p a
    · simp only [scan_file, hp, if_true, Option.some.injEq, Prod.mk.injEq] at h
      obtain ⟨hi, _⟩ := h
      subst hi
      simp [scan_file, hf]
    · simp only [scan_file, hp, if_false, Bool.false_eq_true] at h
      match hrest : scan_file p rest with
      | none => rw [hrest] at h; simp at h
      | some (j, e) =>
        rw [hrest] at h
        simp at h
        obtain ⟨hi, hd⟩ := h
        subst hi
        subst hd
        have hset : (a :: rest).set (j + 1) f = a :: rest.set j f := by simp
        rw [hset]
        simp only [scan_file, hp, if_false, Bool.false_eq_true]
        rw [ih hrest]
        simp

lemma scan_file_get {p : File_t → Bool} {t : List File_t} {i : Nat} {d : File_t}
    (h : scan_file p t = some (i, d)) : t.get? i = some d ∧ p d = true := by
  induction t generalizing i with
  | nil => simp [scan_file] at h
  | cons a rest ih =>
    by_cases hp : p a
    · simp only [scan_file, hp, if_true, Option.some.injEq, Prod.mk.injEq] at h
      obtain ⟨hi, hd⟩ := h
      subst hi
      subst hd
      exact ⟨rfl, hp⟩
    · simp only [scan_file, hp, if_false, Bool.false_eq_true] at h
      match hrest : scan_file p rest with
      | none => rw [hrest] at h; simp at h
      | some (j, e) =>
        rw [hrest] at h
        simp at h
        obtain ⟨hi, hd⟩ := h
        subst hi
        subst hd
        obtain ⟨hg, hpd⟩ := ih hrest
        exact ⟨by simpa using hg, hpd⟩

lemma countP_set {α : Type} (q : α → Bool) (t : List α) (i : Nat) (f d : α)
    (hd : t.get? i = some d) :
    (t.set i f).countP q + (if q d then 1 else 0) =
      t.countP q + (if q f then 1 else 0) := by
  induction t generalizing i with
  | nil => simp at hd
  | cons a rest ih =>
    cases i with
    | zero =>
      simp only [List.get?] at hd
      injection hd with hd
      subst hd
      simp only [List.set]
      rw [List.countP_cons, List.countP_cons]
      omega
    | succ j =>
      simp only [List.get?] at hd
      have hset : (a :: rest).set (j + 1) f = a :: rest.set j f := by simp
      rw [hset, List.countP_cons, List.countP_cons]
      have := ih j hd
      omega

/-! ## Invariants of reachable descriptors and global counters -/

/-- Well-formedness of a descriptor created and maintained by the public
operations: cursor between the bounds, end address inside the medium,
positive record length, cursor offset and capacity multiples of the record
length. -/
def DescOk (d : File_t) : Prop :=
  d.file_start_address ≤ d.next_available_address ∧
  d.next_available_address ≤ d.file_end_address + 1 ∧
  d.file_end_address < EEPROM_SIZE_BYTES ∧
  1 ≤ d.length_bytes ∧
  d.length_bytes ∣ (d.next_available_address - d.file_start_address) ∧
  d.length_bytes ∣ (d.file_end_address + 1 - d.file_start_address)

instance (d : File_t) : Decidable (DescOk d) := by
  unfold DescOk
  infer_instance

/-- Well-formedness of the global counters: the bump pointer stays inside the
data region and space_remaining mirrors it. -/
def GOk (g : GlobalStats_t) : Prop :=
  STORAGE_START_ADDRESS ≤ g.next_available_address ∧
  g.next_available_address ≤ EEPROM_SIZE_BYTES ∧
  g.space_remaining = EEPROM_SIZE_BYTES - g.next_available_address

instance (g : GlobalStats_t) : Decidable (GOk g) := by
  unfold GOk
  infer_instance

/-- State invariant: sound global counters and every valid slot well formed. -/
def InvState (s : State) : Prop :=
  GOk s.g_stats ∧ ∀ d ∈ s.table, is_valid_file d = true → DescOk d

instance (s : State) : Decidable (InvState s) := by
  unfold InvState
  infer_instance

/-- Number of valid descriptors carrying a given filename. -/
def countName (t : List File_t) (name : Nat) : Nat :=
  t.countP (fun d => is_valid_file d && (d.filename == name))

/-- Per-filename uniqueness of the valid slots of the file table. -/
def UniqueNames (s : State) : Prop :=
  ∀ name, countName s.table name ≤ 1

lemma written_entries_of_eq {d : File_t} (h : DescOk d) :
    written_entries_of d =
      (((d.next_available_address - d.file_start_address) / d.length_bytes : Nat) : Int) := by
  obtain ⟨h1, h2, _, h4, ⟨q, hq⟩, ⟨c, hc⟩⟩ := h
  have hr : q ≤ c := by
    have : d.length_bytes * q ≤ d.length_bytes * c := by omega
    exact Nat.le_of_mul_le_mul_left this (by omega)
  obtain ⟨r, hcr⟩ : ∃ r, c = q + r := ⟨c - q, by omega⟩
  have hc2 : d.file_end_address + 1 - d.file_start_address =
      d.length_bytes * q + d.length_bytes * r := by
    rw [hc, hcr, Nat.mul_add]
  have hrem : d.file_end_address + 1 - d.next_available_address =
      d.length_bytes * r := by omega
  have e1 : ((d.file_end_address : Int) + 1) - (d.next_available_address : Int) =
      ((d.length_bytes * r : Nat) : Int) := by
    rw [← hrem]
    omega
  have e2 : (((d.file_end_address : Int) - (d.file_start_address : Int)) + 1) =
      ((d.length_bytes * (q + r) : Nat) : Int) := by
    rw [← hcr, ← hc]
    omega
  unfold written_entries_of
  dsimp only
  rw [e1, e2, ← Int.ofNat_tdiv, ← Int.ofNat_tdiv]
  rw [Nat.mul_div_cancel_left r (by omega), Nat.mul_div_cancel_left (q + r) (by omega)]
  rw [hq, Nat.mul_div_cancel_left q (by omega)]
  push_cast
  omega

/-- get_file_by_name unfolds through scan_file. -/
lemma get_file_by_name_scan {s : State} {name : Nat} {d : File_t}
    (h : get_file_by_name s name = some d) :
    ∃ i, scan_file (file_pred name) s.table = some (i, d) := by
  unfold get_file_by_name at h
  match hscan : scan_file (file_pred name) s.table with
  | none => rw [hscan] at h; simp at h
  | some (j, e) =>
    rw [hscan] at h
    simp at h
    subst h
    exact ⟨j, rfl⟩

lemma get_file_by_name_valid {s : State} {name : Nat} {d : File_t}
    (h : get_file_by_name s name = some d) :
    is_valid_file d = true ∧ d.filename = name := by
  obtain ⟨i, hscan⟩ := get_file_by_name_scan h
  obtain ⟨_, hp⟩ := scan_file_get hscan
  unfold file_pred at hp
  simp at hp
  exact hp

lemma get_file_by_name_mem {s : State} {name : Nat} {d : File_t}
    (h : get_file_by_name s name = some d) : d ∈ s.table := by
  obtain ⟨i, hscan⟩ := get_file_by_name_scan h
  obtain ⟨hg, _⟩ := scan_file_get hscan
  exact List.get?_mem hg

/-- modify_file after a successful lookup overwrites exactly the slot the
lookup scan found. -/
lemma modify_file_of_scan {s : State} {name : Nat} {i : Nat} {d : File_t}
    (h : scan_file (file_pred name) s.table = some (i, d)) (f : File_t) :
    modify_file s name f = (DATA_MANAGER_OK, { s with table := s.table.set i f }) := by
  unfold modify_file
  rw [h]

/-- After modify_file writes a descriptor that satisfies the lookup predicate
into the slot the scan found, the lookup returns that descriptor. -/
lemma get_file_by_name_after_set {s : State} {name : Nat} {i : Nat} {d : File_t}
    (h : scan_file (file_pred name) s.table = some (i, d)) (f : File_t)
    (hf : file_pred name f = true) :
    get_file_by_name { s with table := s.table.set i f } name = some f := by
  unfold get_file_by_name
  simp only
  rw [scan_file_set h f hf]
  rfl

/-! ## Characterisation of a successful append -/

/-- The descriptor append_file_entry persists: cursor advanced by the record
length, valid byte recomputed. -/
def append_updated (d : File_t) (dl : Int) : File_t :=
  let f1 : File_t := { d with
    next_available_address := u16ofInt ((d.next_available_address : Int) + dl) }
  { f1 with valid := checksum8 f1 }

lemma append_success_eq
    (s : State) (name : Nat) (d : File_t) (i : Nat) (data : List Nat) (dl : Int)
    (hscan : scan_file (file_pred name) s.table = some (i, d))
    (hdl : dl = (d.length_bytes : Int))
    (hguard : ¬ ((dl - 1) + (d.next_available_address : Int) > (d.file_end_address : Int))) :
    append_file_entry s name data dl =
      (DATA_MANAGER_OK,
        { g_stats := s.g_stats,
          table := s.table.set i (append_updated d dl),
          data := writeData s.data d.next_available_address (data.take dl.toNat) }) := by
  have h1 : get_file_by_name s name = some d := by
    unfold get_file_by_name
    rw [hscan]
    rfl
  unfold append_file_entry
  rw [h1]
  dsimp only
  rw [if_neg (by simp [hdl]), if_neg hguard]
  have hscan1 : scan_file (file_pred name)
      (State.table { s with data := writeData s.data d.next_available_address (data.take dl.toNat) }) =
      some (i, d) := hscan
  rw [modify_file_of_scan hscan1]
  rfl

/-- A read at an in-range index with the matching length returns the bytes at
start + index * length. -/
lemma read_entry_success (s : State) (name : Nat) (f : File_t) (idx : Int)
    (hlook : get_file_by_name s name = some f)
    (hidx : ¬ (idx + 1 > written_entries_of f)) :
    read_file_entry s name idx (f.length_bytes : Int) =
      (DATA_MANAGER_OK,
        readData s.data
          (u16ofInt ((f.file_start_address : Int) + idx * (f.length_bytes : Int)))
          ((f.length_bytes : Int)).toNat) := by
  have hgw : get_total_written_file_entries s name 0 =
      (DATA_MANAGER_OK, written_entries_of f) := by
    unfold get_total_written_file_entries
    rw [hlook]
  simp [read_file_entry, hlook, hgw, hidx]

/-- C1 (amended): on a well-formed file with a free entry, append followed by
read at the last written index returns the data byte for byte, provided the
recomputed checksum of the updated descriptor is nonzero (a zero checksum
self-invalidates the slot and the read fails with FILE_INVALID_NAME). -/
theorem append_then_read_round_trip
    (s : State) (name : Nat) (d : File_t) (data : List Nat)
    (h1 : get_file_by_name s name = some d)
    (hd : DescOk d)
    (hfree : d.next_available_address + d.length_bytes ≤ d.file_end_address + 1)
    (hdata : data.length = d.length_bytes)
    (hcs : checksum8 { d with next_available_address :=
        d.next_available_address + d.length_bytes } ≠ 0) :
    (append_file_entry s name data (d.length_bytes : Int)).1 = DATA_MANAGER_OK ∧
    (get_total_written_file_entries
        (append_file_entry s name data (d.length_bytes : Int)).2 name 0).1 = DATA_MANAGER_OK ∧
    read_file_entry (append_file_entry s name data (d.length_bytes : Int)).2 name
      ((get_total_written_file_entries
          (append_file_entry s name data (d.length_bytes : Int)).2 name 0).2 - 1)
      (d.length_bytes : Int) = (DATA_MANAGER_OK, data) := by
  obtain ⟨i, hscan⟩ := get_file_by_name_scan h1
  obtain ⟨hvalid, hname⟩ := get_file_by_name_valid h1
  obtain ⟨hb1, hb2, hb3, hb4, hdvd1, hdvd2⟩ := hd
  unfold EEPROM_SIZE_BYTES at hb3
  have hnext : u16ofInt ((d.next_available_address : Int) + (d.length_bytes : Int)) =
      d.next_available_address + d.length_bytes := by
    unfold u16ofInt
    omega
  have hf2eq : append_updated d (d.length_bytes : Int) =
      { d with
        next_available_address := d.next_available_address + d.length_bytes,
        valid := checksum8 { d with
          next_available_address := d.next_available_address + d.length_bytes } } := by
    unfold append_updated
    dsimp only
    rw [hnext]
  have hvalid2 : is_valid_file { d with
      next_available_address := d.next_available_address + d.length_bytes,
      valid := checksum8 { d with
        next_available_address := d.next_available_address + d.length_bytes } } = true := by
    rw [is_valid_file_iff]
    exact ⟨hcs, rfl⟩
  have hpred : file_pred name { d with
      next_available_address := d.next_available_address + d.length_bytes,
      valid := checksum8 { d with
        next_available_address := d.next_available_address + d.length_bytes } } = true := by
    unfold file_pred
    rw [hvalid2]
    simp [hname]
  have happ := append_success_eq s name d i data (d.length_bytes : Int) hscan rfl
    (by omega)
  rw [hf2eq] at happ
  rw [happ]
  dsimp only
  have htake : data.take ((d.length_bytes : Int)).toNat = data := by
    rw [Int.toNat_ofNat, ← hdata, List.take_length]
  have hlook2 : get_file_by_name
      { g_stats := s.g_stats,
        table := s.table.set i { d with
          next_available_address := d.next_available_address + d.length_bytes,
          valid := checksum8 { d with
            next_available_address := d.next_available_address + d.length_bytes } },
        data := writeData s.data d.next_available_address
          (data.take ((d.length_bytes : Int)).toNat) } name =
      some { d with
        next_available_address := d.next_available_address + d.length_bytes,
        valid := checksum8 { d with
          next_available_address := d.next_available_address + d.length_bytes } } := by
    unfold get_file_by_name
    dsimp only
    rw [scan_file_set hscan _ hpred]
    rfl
  have hdNew : DescOk { d with
      next_available_address := d.next_available_address + d.length_bytes,
      valid := checksum8 { d with
        next_available_address := d.next_available_address + d.length_bytes } } := by
    refine ⟨by dsimp only; omega, by dsimp only; omega, by dsimp only; unfold EEPROM_SIZE_BYTES; omega,
      hb4, ?_, hdvd2⟩
    dsimp only
    have hrw : d.next_available_address + d.length_bytes - d.file_start_address =
        (d.next_available_address - d.file_start_address) + d.length_bytes := by omega
    rw [hrw]
    exact dvd_add hdvd1 dvd_rfl
  have hw : written_entries_of { d with
      next_available_address := d.next_available_address + d.length_bytes,
      valid := checksum8 { d with
        next_available_address := d.next_available_address + d.length_bytes } } =
      (((d.next_available_address - d.file_start_address) / d.length_bytes + 1 : Nat) : Int) := by
    rw [written_entries_of_eq hdNew]
    dsimp only
    have hrw : d.next_available_address + d.length_bytes - d.file_start_address =
        (d.next_available_address - d.file_start_address) + d.length_bytes := by omega
    rw [hrw, Nat.add_div_right _ (by omega)]
  have hgw : get_total_written_file_entries
      { g_stats := s.g_stats,
        table := s.table.set i { d with
          next_available_address := d.next_available_address + d.length_bytes,
          valid := checksum8 { d with
            next_available_address := d.next_available_address + d.length_bytes } },
        data := writeData s.data d.next_available_address
          (data.take ((d.length_bytes : Int)).toNat) } name 0 =
      (DATA_MANAGER_OK,
        (((d.next_available_address - d.file_start_address) / d.length_bytes + 1 : Nat) : Int)) := by
    unfold get_total_written_file_entries
    rw [hlook2]
    exact congrArg (fun z => (DATA_MANAGER_OK, z)) hw
  refine ⟨rfl, by rw [hgw], ?_⟩
  rw [hgw]
  dsimp only
  have hidx : ¬ ((((d.next_available_address - d.file_start_address) / d.length_bytes + 1 : Nat) : Int) - 1 + 1 >
      written_entries_of { d with
        next_available_address := d.next_available_address + d.length_bytes,
        valid := checksum8 { d with
          next_available_address := d.next_available_address + d.length_bytes } }) := by
    rw [hw]
    push_cast
    omega
  have hread := read_entry_success _ name _ _ hlook2 hidx
  rw [hread]
  have hqL : (d.next_available_address - d.file_start_address) / d.length_bytes *
      d.length_bytes = d.next_available_address - d.file_start_address :=
    Nat.div_mul_cancel hdvd1
  have haddr : u16ofInt ((d.file_start_address : Int) +
      ((((d.next_available_address - d.file_start_address) / d.length_bytes + 1 : Nat) : Int) - 1) *
        (d.length_bytes : Int)) = d.next_available_address := by
    have hcast : ((((d.next_available_address - d.file_start_address) / d.length_bytes + 1 : Nat) : Int) - 1) *
        (d.length_bytes : Int) =
        (((d.next_available_address - d.file_start_address) / d.length_bytes *
          d.length_bytes : Nat) : Int) := by
      push_cast
      ring
    rw [hcast, hqL]
    unfold u16ofInt
    omega
  rw [haddr]
  dsimp only
  rw [htake]
  have hlen : ((d.length_bytes : Int)).toNat = data.length := by
    rw [Int.toNat_ofNat, hdata]
  rw [hlen, readData_writeData_self]

/-! ## Concrete reachable states used by witnesses and counterexamples -/

/-- A blank medium before any formatting. -/
def blank_state : State :=
  ⟨⟨0, 0, 0⟩, List.replicate get_max_files zero_file, fun _ => 0⟩

/-- The state right after init_filesystem on a blank medium. -/
def init_state : State := (init_filesystem blank_state).2

/-- add_file argument: record length 1, filename 1 (bounds filled in by
add_file). -/
def file_arg_1 : File_t := ⟨1, 0, 0, 0, 1, 0⟩

/-- add_file argument with filename 254, picked so that the checksum of the
descriptor after one append is 0 mod 256. -/
def file_arg_254 : File_t := ⟨1, 0, 0, 0, 254, 0⟩

/-- init, then a file of two one-byte entries named 1. -/
def state_two_entries : State := (add_file init_state file_arg_1 2).2

/-- The descriptor add_file stores for file_arg_1 with two entries. -/
def desc_two_entries : File_t := ⟨1, 256, 257, 256, 1, 3⟩

/-- init, then a file of one one-byte entry named 254. -/
def state_254 : State := (add_file init_state file_arg_254 1).2

theorem append_then_read_round_trip_witness :
    get_file_by_name state_two_entries 1 = some desc_two_entries ∧
    DescOk desc_two_entries ∧
    desc_two_entries.next_available_address + desc_two_entries.length_bytes ≤
      desc_two_entries.file_end_address + 1 ∧
    ([9] : List Nat).length = desc_two_entries.length_bytes ∧
    checksum8 { desc_two_entries with next_available_address :=
      desc_two_entries.next_available_address + desc_two_entries.length_bytes } ≠ 0 ∧
    ((append_file_entry state_two_entries 1 [9] (desc_two_entries.length_bytes : Int)).1 =
        DATA_MANAGER_OK ∧
      (get_total_written_file_entries
          (append_file_entry state_two_entries 1 [9] (desc_two_entries.length_bytes : Int)).2
          1 0).1 = DATA_MANAGER_OK ∧
      read_file_entry
        (append_file_entry state_two_entries 1 [9] (desc_two_entries.length_bytes : Int)).2 1
        ((get_total_written_file_entries
            (append_file_entry state_two_entries 1 [9] (desc_two_entries.length_bytes : Int)).2
            1 0).2 - 1)
        (desc_two_entries.length_bytes : Int) = (DATA_MANAGER_OK, [9])) :=
  ⟨by decide, by decide, by decide, by decide, by decide,
    append_then_read_round_trip state_two_entries 1 desc_two_entries [9]
      (by decide) (by decide) (by decide) (by decide) (by decide)⟩

/-- C1 counterexample: on the reachable state with a file named 254 of one
one-byte entry, append succeeds but the recomputed checksum is 0, the slot
self-invalidates, and the read of the just-written entry fails with
FILE_INVALID_NAME instead of returning the data. -/
theorem round_trip_checksum_zero_cex :
    (append_file_entry state_254 254 [7] 1).1 = DATA_MANAGER_OK ∧
    read_file_entry (append_file_entry state_254 254 [7] 1).2 254 0 1 =
      (FILE_INVALID_NAME, []) ∧
    FILE_INVALID_NAME ≠ DATA_MANAGER_OK := by
  decide

/-- A valid descriptor whose region (one 1-byte entry at 256) is full. -/
def desc_full : File_t := ⟨1, 256, 256, 257, 5, 7⟩

/-- A state holding desc_full in slot 0. -/
def state_full : State :=
  ⟨⟨257, 31743, INITIALISED⟩, desc_full :: List.replicate 23 zero_file, fun _ => 0⟩

/-- C8: appending with the matching record length to a file whose region is
exhausted returns FILE_ENTRY_FULL and leaves the whole state, in particular
the persisted descriptor, unchanged. -/
theorem append_entry_full_unchanged (s : State) (name : Nat) (d : File_t)
    (data : List Nat)
    (h1 : get_file_by_name s name = some d)
    (hguard : (d.next_available_address : Int) + (d.length_bytes : Int) - 1 >
      (d.file_end_address : Int)) :
    append_file_entry s name data (d.length_bytes : Int) = (FILE_ENTRY_FULL, s) := by
  have hg2 : ((d.length_bytes : Int) - 1) + (d.next_available_address : Int) >
      (d.file_end_address : Int) := by omega
  simp [append_file_entry, h1, hg2]

theorem append_entry_full_unchanged_witness :
    get_file_by_name state_full 5 = some desc_full ∧
    (desc_full.next_available_address : Int) + (desc_full.length_bytes : Int) - 1 >
      (desc_full.file_end_address : Int) ∧
    append_file_entry state_full 5 [7] (desc_full.length_bytes : Int) =
      (FILE_ENTRY_FULL, state_full) :=
  ⟨by decide, by decide,
    append_entry_full_unchanged state_full 5 desc_full [7] (by decide) (by decide)⟩

/-- An add_file request larger than the whole data region. -/
def file_arg_big : File_t := ⟨31745, 0, 0, 0, 1, 0⟩

/-- C3 (amended): when entries_to_store * length_bytes exceeds
space_remaining, add_file fails with FILE_TABLE_FULL (the same code the full
file table uses; the firmware has no separate insufficient-space code) and
the whole state, in particular the persisted global counters, is unchanged. -/
theorem add_file_insufficient_space (s : State) (f : File_t) (e : Nat)
    (h : (e : Int) * (f.length_bytes : Int) > (s.g_stats.space_remaining : Int)) :
    add_file s f e = (FILE_TABLE_FULL, s) := by
  unfold add_file get_global_stats
  rw [if_pos h]

theorem add_file_insufficient_space_witness :
    (1 : Int) * ((file_arg_big.length_bytes : Int)) >
      (init_state.g_stats.space_remaining : Int) ∧
    add_file init_state file_arg_big 1 = (FILE_TABLE_FULL, init_state) :=
  ⟨by decide, add_file_insufficient_space init_state file_arg_big 1 (by decide)⟩

/-- C3 counterexample: the over-large request fails with FILE_TABLE_FULL
itself, not with an error code distinct from the table-full code (no
insufficient-space code exists in the enum). -/
theorem add_file_insufficient_space_is_table_full_cex :
    add_file init_state file_arg_big 1 = (FILE_TABLE_FULL, init_state) ∧
    FILE_TABLE_FULL = 20 := by
  exact ⟨rfl, rfl⟩

/-- A valid descriptor holding no written entries (cursor at start). -/
def desc_empty : File_t := ⟨1, 256, 256, 256, 1, 2⟩

/-- A state holding desc_empty in slot 0. -/
def state_empty_file : State :=
  ⟨⟨257, 31743, INITIALISED⟩, desc_empty :: List.replicate 23 zero_file, fun _ => 0⟩

/-- C9 (amended): a read whose data_length differs from the file's
length_bytes returns FILE_ENTRY_LENGTH_MISMATCH for every entry_index below
the written-entry count; for indices at or beyond the count the index check
fires first (see the counterexample). -/
theorem read_length_mismatch (s : State) (name : Nat) (d : File_t)
    (entry_index data_length : Int)
    (h1 : get_file_by_name s name = some d)
    (hidx : ¬ (entry_index + 1 > written_entries_of d))
    (hdl : data_length ≠ (d.length_bytes : Int)) :
    read_file_entry s name entry_index data_length =
      (FILE_ENTRY_LENGTH_MISMATCH, []) := by
  have hgw : get_total_written_file_entries s name 0 =
      (DATA_MANAGER_OK, written_entries_of d) := by
    unfold get_total_written_file_entries
    rw [h1]
  simp [read_file_entry, h1, hgw, hidx, hdl]

theorem read_length_mismatch_witness :
    get_file_by_name state_full 5 = some desc_full ∧
    ¬ ((0 : Int) + 1 > written_entries_of desc_full) ∧
    (2 : Int) ≠ (desc_full.length_bytes : Int) ∧
    read_file_entry state_full 5 0 2 = (FILE_ENTRY_LENGTH_MISMATCH, []) :=
  ⟨by decide, by decide, by decide,
    read_length_mismatch state_full 5 desc_full 0 2 (by decide) (by decide) (by decide)⟩

/-- C9 counterexample: on a file with zero written entries, a read with a
mismatched length at index 0 returns FILE_ENTRY_INVALID_INDEX, not
FILE_ENTRY_LENGTH_MISMATCH, because the index check precedes the length
check. -/
theorem read_length_mismatch_index_first_cex :
    read_file_entry state_empty_file 1 0 2 = (FILE_ENTRY_INVALID_INDEX, []) ∧
    FILE_ENTRY_INVALID_INDEX ≠ FILE_ENTRY_LENGTH_MISMATCH := by
  decide

/-- A formatted-looking state whose initialised magic is wrong. -/
def state_uninitialised : State :=
  ⟨⟨256, 31744, 0⟩, List.replicate get_max_files zero_file, fun _ => 0⟩

/-- C4 (code bug): is_initialised reports true for every state because the
false-assignment on a magic mismatch is unconditionally overwritten by the
assignment of true; in particular it reports true on a state whose
initialised field differs from the magic. -/
theorem is_initialised_always_true_bug :
    (∀ (s : State) (b : Bool), is_initialised s b = (DATA_MANAGER_OK, true)) ∧
    state_uninitialised.g_stats.initialised ≠ INITIALISED ∧
    is_initialised state_uninitialised false = (DATA_MANAGER_OK, true) :=
  ⟨fun s b => rfl, by decide, rfl⟩

lemma count_valid_loop_eq (t : List File_t) (v : Int) :
    count_valid_loop t v = v + (t.countP is_valid_file : Int) := by
  induction t generalizing v with
  | nil => simp [count_valid_loop]
  | cons a rest ih =>
    rw [count_valid_loop, List.countP_cons, ih]
    by_cases h : is_valid_file a
    · simp [h]
      omega
    · simp [h]

/-- C10: total_stored_files returns OK and adds the number of valid
file-table slots to whatever value the caller left in the out-parameter; it
never resets the out-parameter. -/
theorem total_stored_files_adds_count (s : State) (v : Int) :
    total_stored_files s v =
      (DATA_MANAGER_OK, v + (s.table.countP is_valid_file : Int)) := by
  unfold total_stored_files
  rw [count_valid_loop_eq]

/-! ## Serialised descriptor layout (C2) -/

/-- Little-endian serialised layout of File_t as stored in a 10-byte
file-table slot: the four uint16_t fields as low/high byte pairs in
declaration order, then the filename and valid bytes. -/
def encodeFile (d : File_t) : List Nat :=
  [d.length_bytes % 256, d.length_bytes / 256 % 256,
   d.file_start_address % 256, d.file_start_address / 256 % 256,
   d.file_end_address % 256, d.file_end_address / 256 % 256,
   d.next_available_address % 256, d.next_available_address / 256 % 256,
   d.filename % 256, d.valid % 256]

/-- Reading a 10-byte slot back into a File_t. -/
def decodeFile (bs : List Nat) : File_t :=
  { length_bytes := bs.getD 0 0 + 256 * bs.getD 1 0,
    file_start_address := bs.getD 2 0 + 256 * bs.getD 3 0,
    file_end_address := bs.getD 4 0 + 256 * bs.getD 5 0,
    next_available_address := bs.getD 6 0 + 256 * bs.getD 7 0,
    filename := bs.getD 8 0,
    valid := bs.getD 9 0 }

/-- Field ranges of a descriptor as stored by the C unions. -/
def FileWF (d : File_t) : Prop :=
  d.length_bytes < 65536 ∧ d.file_start_address < 65536 ∧
  d.file_end_address < 65536 ∧ d.next_available_address < 65536 ∧
  d.filename < 256 ∧ d.valid < 256

instance (d : File_t) : Decidable (FileWF d) := by
  unfold FileWF
  infer_instance

/-- C2 (amended): for a valid stored descriptor, changing the filename byte
or the low byte of any of the four 16-bit fields to a different value makes
is_valid_file reject the slot, and the all-zero descriptor is always
invalid.  (Changing a high byte shifts the field by a multiple of 256, which
the mod-256 checksum cannot see; see the counterexample.) -/
theorem checksum_detects_low_byte_change (d : File_t) (hwf : FileWF d)
    (hv : is_valid_file d = true) (p : Nat) (hp : p ∈ ([0, 2, 4, 6, 8] : List Nat))
    (b : Nat) (hb : b < 256) (hne : b ≠ (encodeFile d).getD p 0) :
    is_valid_file (decodeFile ((encodeFile d).set p b)) = false ∧
    is_valid_file zero_file = false := by
  refine ⟨?_, zero_file_invalid⟩
  obtain ⟨w1, w2, w3, w4, w5, w6⟩ := hwf
  rw [is_valid_file_iff] at hv
  obtain ⟨hv0, hveq⟩ := hv
  rw [is_valid_file_false_iff]
  right
  unfold checksum8 at hveq
  simp only [List.mem_cons, List.mem_singleton, List.not_mem_nil, or_false] at hp
  rcases hp with rfl | rfl | rfl | rfl | rfl <;>
    · simp only [encodeFile, List.set] at hne ⊢
      simp only [decodeFile, checksum8, List.getD, List.get?] at hne ⊢
      simp at hne ⊢
      omega

/-- C2 counterexample: flipping the high byte of the length_bytes field of a
valid stored descriptor (byte 1 of the serialised layout, changed from 0 to
1) yields a different descriptor that is_valid_file still accepts, because
the field moves by 256 and the mod-256 checksum does not change. -/
theorem checksum_misses_high_byte_flip_cex :
    is_valid_file desc_full = true ∧
    (encodeFile desc_full).getD 1 0 = 0 ∧
    decodeFile ((encodeFile desc_full).set 1 1) ≠ desc_full ∧
    is_valid_file (decodeFile ((encodeFile desc_full).set 1 1)) = true := by
  decide

theorem checksum_detects_low_byte_change_witness :
    FileWF desc_full ∧ is_valid_file desc_full = true ∧
    (0 : Nat) ∈ ([0, 2, 4, 6, 8] : List Nat) ∧ (9 : Nat) < 256 ∧
    (9 : Nat) ≠ (encodeFile desc_full).getD 0 0 ∧
    (is_valid_file (decodeFile ((encodeFile desc_full).set 0 9)) = false ∧
      is_valid_file zero_file = false) :=
  ⟨by decide, by decide, by decide, by decide, by decide,
    checksum_detects_low_byte_change desc_full (by decide) (by decide) 0 (by decide)
      9 (by decide) (by decide)⟩

/-! ## The public mutating operations as a step relation -/

/-- One public mutating call of the DataManager API. -/
inductive DMOp
  | addf (file : File_t) (entries_to_store : Nat)
  | appendf (filename : Nat) (data : List Nat) (data_length : Int)
  | overwritef (filename : Nat) (data : List Nat) (data_length : Int)
  | deletef (filename : Nat)
  | truncatef (filename : Nat) (entries_to_remove : Int)

/-- The state after one public mutating call. -/
def applyOp (op : DMOp) (s : State) : State :=
  match op with
  | .addf f e => (add_file s f e).2
  | .appendf n data dl => (append_file_entry s n data dl).2
  | .overwritef n data dl => (overwrite_file_entries s n data dl).2
  | .deletef n => (delete_file_entries s n).2
  | .truncatef n k => (truncate_file s n k).2

/-- Freshness side condition: add_file is only applied to filenames that no
valid descriptor already carries (the other operations need nothing). -/
def addFresh (op : DMOp) (s : State) : Prop :=
  match op with
  | .addf f _ => countName s.table f.filename = 0
  | _ => True

instance (op : DMOp) (s : State) : Decidable (addFresh op s) := by
  unfold addFresh
  cases op <;> infer_instance

lemma countName_set_le_one {t : List File_t} {n i : Nat} {d : File_t}
    (hall : ∀ m, countName t m ≤ 1)
    (hscan : scan_file (file_pred n) t = some (i, d)) (f : File_t)
    (hname : f.filename = d.filename) :
    ∀ m, countName (t.set i f) m ≤ 1 := by
  intro m
  obtain ⟨hget, hpd⟩ := scan_file_get hscan
  have hcount := countP_set (fun x => is_valid_file x && (x.filename == m)) t i f d hget
  unfold file_pred at hpd
  simp only [Bool.and_eq_true, beq_iff_eq] at hpd
  obtain ⟨hvd, _⟩ := hpd
  by_cases hm : m = d.filename
  · subst hm
    have h1 := hall d.filename
    unfold countName at h1 ⊢
    rw [if_pos (by simp [hvd])] at hcount
    by_cases hqf : (is_valid_file f && (f.filename == d.filename)) = true
    · rw [if_pos hqf] at hcount
      omega
    · rw [if_neg hqf] at hcount
      omega
  · have h1 := hall m
    unfold countName at h1 ⊢
    rw [if_neg (by simp [hm, hvd]; intro h; omega)] at hcount
    rw [if_neg (by simp [hname]; intro h; omega)] at hcount
    omega

lemma unique_modify {s : State} {n : Nat} {f : File_t}
    (hu : UniqueNames s)
    (hname : ∀ i d, scan_file (file_pred n) s.table = some (i, d) →
      f.filename = d.filename) :
    UniqueNames (modify_file s n f).2 := by
  unfold modify_file
  split
  · exact hu
  case _ i d heq =>
    exact countName_set_le_one hu heq f (hname i d heq)

lemma unique_append {s : State} (n : Nat) (data : List Nat) (dl : Int)
    (hu : UniqueNames s) : UniqueNames (append_file_entry s n data dl).2 := by
  unfold append_file_entry
  split
  · exact hu
  case _ file hlook =>
    split
    · exact hu
    split
    · exact hu
    · refine unique_modify hu ?_
      intro i d heq
      obtain ⟨j, hscan⟩ := get_file_by_name_scan hlook
      have heq2 : scan_file (file_pred n) s.table = some (i, d) := heq
      have h2 : (some (j, file) : Option (Nat × File_t)) = some (i, d) :=
        hscan.symm.trans heq2
      simp only [Option.some.injEq, Prod.mk.injEq] at h2
      rw [← h2.2]

lemma unique_overwrite {s : State} (n : Nat) (data : List Nat) (dl : Int)
    (hu : UniqueNames s) : UniqueNames (overwrite_file_entries s n data dl).2 := by
  unfold overwrite_file_entries
  split
  · exact hu
  case _ file hlook =>
    split
    · exact hu
    · refine unique_modify hu ?_
      intro i d heq
      obtain ⟨j, hscan⟩ := get_file_by_name_scan hlook
      have heq2 : scan_file (file_pred n) s.table = some (i, d) := heq
      have h2 : (some (j, file) : Option (Nat × File_t)) = some (i, d) :=
        hscan.symm.trans heq2
      simp only [Option.some.injEq, Prod.mk.injEq] at h2
      rw [← h2.2]

lemma unique_delete {s : State} (n : Nat)
    (hu : UniqueNames s) : UniqueNames (delete_file_entries s n).2 := by
  unfold delete_file_entries
  split
  · exact hu
  case _ file hlook =>
    refine unique_modify hu ?_
    intro i d heq
    obtain ⟨j, hscan⟩ := get_file_by_name_scan hlook
    have h2 : (some (j, file) : Option (Nat × File_t)) = some (i, d) :=
      hscan.symm.trans heq
    simp only [Option.some.injEq, Prod.mk.injEq] at h2
    rw [← h2.2]

lemma countName_set_invalid_le_one {t : List File_t} {i : Nat} {d0 : File_t}
    (f2 : File_t)
    (hall : ∀ m, countName t m ≤ 1)
    (hget : t.get? i = some d0) (hinv : is_valid_file d0 = false)
    (hfresh : countName t f2.filename = 0) :
    ∀ m, countName (t.set i f2) m ≤ 1 := by
  intro m
  have hcount := countP_set (fun x => is_valid_file x && (x.filename == m)) t i f2 d0 hget
  rw [if_neg (by simp [hinv])] at hcount
  unfold countName
  by_cases hm : m = f2.filename
  · subst hm
    unfold countName at hfresh
    split_ifs at hcount <;> omega
  · have h1 := hall m
    unfold countName at h1
    rw [if_neg ?_] at hcount
    · omega
    · simp only [Bool.and_eq_true, beq_iff_eq]
      rintro ⟨-, h2⟩
      exact hm h2.symm

lemma truncate_shift_spec (n L st : Nat) : ∀ (fuel : Nat) (cur ni : Int) (s : State),
    (truncate_shift n L st fuel cur ni s).2.1.table = s.table ∧
    (truncate_shift n L st fuel cur ni s).2.1.g_stats = s.g_stats ∧
    ((truncate_shift n L st fuel cur ni s).1 = DATA_MANAGER_OK →
      (truncate_shift n L st fuel cur ni s).2.2 = ni + (fuel : Int)) := by
  intro fuel
  induction fuel with
  | zero =>
    intro cur ni s
    refine ⟨rfl, rfl, fun _ => by simp [truncate_shift]⟩
  | succ fuel ih =>
    intro cur ni s
    unfold truncate_shift
    dsimp only
    split
    case _ hbad =>
      refine ⟨rfl, rfl, fun hok => absurd hok hbad⟩
    case _ hok =>
      obtain ⟨h1, h2, h3⟩ := ih (cur + 1) (ni + 1)
        ⟨s.g_stats, s.table, writeData s.data (u16ofInt ((st : Int) + ni * (L : Int))) (read_file_entry s n cur (L : Int)).2⟩
      refine ⟨h1, h2, fun hfin => ?_⟩
      rw [h3 hfin]
      push_cast
      ring

lemma unique_truncate {s : State} (n : Nat) (k : Int)
    (hu : UniqueNames s) : UniqueNames (truncate_file s n k).2 := by
  unfold truncate_file
  split
  · exact hu
  case _ file hlook =>
    dsimp only
    split
    · exact hu
    split
    · exact unique_delete n hu
    · split
      case _ hbad =>
        intro m
        have ht := (truncate_shift_spec n file.length_bytes file.file_start_address
          ((get_total_written_file_entries s n 0).2 - k).toNat k 0 s).1
        unfold countName
        rw [ht]
        exact hu m
      case _ hok =>
        have ht := (truncate_shift_spec n file.length_bytes file.file_start_address
          ((get_total_written_file_entries s n 0).2 - k).toNat k 0 s).1
        refine unique_modify (fun m => by unfold countName; rw [ht]; exact hu m) ?_
        intro i d heq
        obtain ⟨j, hscan⟩ := get_file_by_name_scan hlook
        have heq2 : scan_file (file_pred n) s.table = some (i, d) := by
          rw [← ht]
          exact heq
        have h2 : (some (j, file) : Option (Nat × File_t)) = some (i, d) :=
          hscan.symm.trans heq2
        simp only [Option.some.injEq, Prod.mk.injEq] at h2
        rw [← h2.2]

lemma unique_add {s : State} (f : File_t) (e : Nat)
    (hu : UniqueNames s) (hfresh : countName s.table f.filename = 0) :
    UniqueNames (add_file s f e).2 := by
  unfold add_file
  dsimp only
  split
  · exact hu
  · split
    · exact hu
    case _ i0 d0 hscan =>
      have hscan2 : scan_file (fun d => ! is_valid_file d) s.table = some (i0, d0) := hscan
      obtain ⟨hget, hpd⟩ := scan_file_get hscan2
      have hinvalid : is_valid_file d0 = false := by
        simpa using hpd
      intro m
      refine countName_set_invalid_le_one _ hu hget hinvalid ?_ m
      exact hfresh

/-- C5 (amended): per-filename uniqueness of valid descriptors is preserved
by append, overwrite, delete and truncate unconditionally, and by add_file
whenever the added filename is not already carried by a valid descriptor.
(add_file performs no duplicate check, so adding an existing name creates a
second valid descriptor; see the counterexample.) -/
theorem unique_filenames_preserved (op : DMOp) (s : State)
    (hu : UniqueNames s) (hfresh : addFresh op s) :
    UniqueNames (applyOp op s) := by
  cases op with
  | addf f e => exact unique_add f e hu hfresh
  | appendf n data dl => exact unique_append n data dl hu
  | overwritef n data dl => exact unique_overwrite n data dl hu
  | deletef n => exact unique_delete n hu
  | truncatef n k => exact unique_truncate n k hu

lemma unique_names_init : UniqueNames init_state := by
  intro m
  unfold countName
  rw [List.countP_eq_zero.mpr]
  · omega
  · intro a ha
    have hz : a = zero_file := List.eq_of_mem_replicate ha
    subst hz
    simp [zero_file_invalid]

theorem unique_filenames_preserved_witness :
    UniqueNames init_state ∧
    addFresh (DMOp.addf file_arg_1 1) init_state ∧
    UniqueNames (applyOp (DMOp.addf file_arg_1 1) init_state) :=
  ⟨unique_names_init, by decide,
    unique_filenames_preserved (DMOp.addf file_arg_1 1) init_state
      unique_names_init (by decide)⟩

/-- The state after adding the same one-entry file named 1 twice from a
fresh filesystem. -/
def state_dup_name : State :=
  (add_file (add_file init_state file_arg_1 1).2 file_arg_1 1).2

/-- C5 counterexample: two add_file calls with the same filename, starting
from the freshly initialised filesystem, leave two valid descriptors
carrying filename 1 in the file table. -/
theorem add_file_duplicate_name_cex :
    countName state_dup_name.table 1 = 2 ∧ ¬ countName state_dup_name.table 1 ≤ 1 := by
  decide

/-! ## Preservation of the cursor bounds invariant (C6) -/

lemma eeprom_size_eq : EEPROM_SIZE_BYTES = 32000 := rfl

lemma storage_start_eq : STORAGE_START_ADDRESS = 256 := by decide

lemma desc_part_set {t : List File_t}
    (hall : ∀ d ∈ t, is_valid_file d = true → DescOk d)
    {i : Nat} {f : File_t} (hf : is_valid_file f = true → DescOk f) :
    ∀ d ∈ t.set i f, is_valid_file d = true → DescOk d := by
  intro d hd
  rcases List.mem_or_eq_of_mem_set hd with h | rfl
  · exact hall d h
  · exact hf

lemma inv_modify {s : State} {n : Nat} {f : File_t}
    (hinv : InvState s) (hf : is_valid_file f = true → DescOk f) :
    InvState (modify_file s n f).2 := by
  unfold modify_file
  split
  · exact hinv
  · exact ⟨hinv.1, desc_part_set hinv.2 hf⟩

lemma descok_append_upd {d : File_t} (h : DescOk d) {dl : Int}
    (hdl : dl = (d.length_bytes : Int))
    (hguard : ¬ ((dl - 1) + (d.next_available_address : Int) >
      (d.file_end_address : Int))) :
    DescOk { d with
      next_available_address := u16ofInt ((d.next_available_address : Int) + dl) } := by
  obtain ⟨h1, h2, h3, h4, hv1, hv2⟩ := h
  subst hdl
  rw [eeprom_size_eq] at h3
  have hle : d.next_available_address + d.length_bytes ≤ d.file_end_address + 1 := by
    omega
  have hu : u16ofInt ((d.next_available_address : Int) + (d.length_bytes : Int)) =
      d.next_available_address + d.length_bytes := by
    unfold u16ofInt
    omega
  rw [hu]
  refine ⟨by dsimp only; omega, by dsimp only; omega,
    by dsimp only; rw [eeprom_size_eq]; omega, h4, ?_, hv2⟩
  dsimp only
  have hrw : d.next_available_address + d.length_bytes - d.file_start_address =
      (d.next_available_address - d.file_start_address) + d.length_bytes := by omega
  rw [hrw]
  exact dvd_add hv1 dvd_rfl

lemma descok_overwrite_upd {d : File_t} (h : DescOk d) {dl : Int}
    (hdl : dl = (d.length_bytes : Int))
    (hcap : d.length_bytes ≤ d.file_end_address + 1 - d.file_start_address) :
    DescOk { d with
      next_available_address := u16ofInt ((d.file_start_address : Int) + dl) } := by
  obtain ⟨h1, h2, h3, h4, hv1, hv2⟩ := h
  subst hdl
  rw [eeprom_size_eq] at h3
  have hu : u16ofInt ((d.file_start_address : Int) + (d.length_bytes : Int)) =
      d.file_start_address + d.length_bytes := by
    unfold u16ofInt
    omega
  rw [hu]
  refine ⟨by dsimp only; omega, by dsimp only; omega,
    by dsimp only; rw [eeprom_size_eq]; omega, h4, ?_, hv2⟩
  dsimp only
  have hrw : d.file_start_address + d.length_bytes - d.file_start_address =
      d.length_bytes := by omega
  rw [hrw]

lemma descok_delete_upd {d : File_t} (h : DescOk d) :
    DescOk { d with next_available_address := d.file_start_address } := by
  obtain ⟨h1, h2, h3, h4, hv1, hv2⟩ := h
  exact ⟨Nat.le_refl _, by dsimp only; omega, h3, h4, by dsimp only; simp, hv2⟩

lemma inv_append {s : State} (n : Nat) (data : List Nat) (dl : Int)
    (hinv : InvState s) : InvState (append_file_entry s n data dl).2 := by
  unfold append_file_entry
  split
  · exact hinv
  case _ file hlook =>
    split
    · exact hinv
    case _ hlen =>
      split
      · exact hinv
      case _ hguard =>
        have hdl : dl = (file.length_bytes : Int) := not_not.mp hlen
        have hdfile : DescOk file :=
          hinv.2 file (get_file_by_name_mem hlook) (get_file_by_name_valid hlook).1
        exact inv_modify hinv (fun _ => descok_append_upd hdfile hdl hguard)

lemma inv_overwrite {s : State} (n : Nat) (data : List Nat) (dl : Int)
    (hinv : InvState s)
    (hcap : ∀ d, get_file_by_name s n = some d →
      d.length_bytes ≤ d.file_end_address + 1 - d.file_start_address) :
    InvState (overwrite_file_entries s n data dl).2 := by
  unfold overwrite_file_entries
  split
  · exact hinv
  case _ file hlook =>
    split
    · exact hinv
    case _ hlen =>
      have hdl : dl = (file.length_bytes : Int) := not_not.mp hlen
      have hdfile : DescOk file :=
        hinv.2 file (get_file_by_name_mem hlook) (get_file_by_name_valid hlook).1
      exact inv_modify hinv (fun _ => descok_overwrite_upd hdfile hdl (hcap file hlook))

lemma inv_delete {s : State} (n : Nat)
    (hinv : InvState s) : InvState (delete_file_entries s n).2 := by
  unfold delete_file_entries
  split
  · exact hinv
  case _ file hlook =>
    have hdfile : DescOk file :=
      hinv.2 file (get_file_by_name_mem hlook) (get_file_by_name_valid hlook).1
    exact inv_modify hinv (fun _ => @descok_delete_upd file hdfile)

lemma inv_truncate {s : State} (n : Nat) (k : Int) (hk : 0 ≤ k)
    (hinv : InvState s) : InvState (truncate_file s n k).2 := by
  unfold truncate_file
  split
  · exact hinv
  case _ file hlook =>
    dsimp only
    split
    · exact hinv
    split
    · exact inv_delete n hinv
    case _ hklt =>
      have hgw : get_total_written_file_entries s n 0 =
          (DATA_MANAGER_OK, written_entries_of file) := by
        unfold get_total_written_file_entries
        rw [hlook]
      have hdfile : DescOk file :=
        hinv.2 file (get_file_by_name_mem hlook) (get_file_by_name_valid hlook).1
      have ht := truncate_shift_spec n file.length_bytes file.file_start_address
        ((get_total_written_file_entries s n 0).2 - k).toNat k 0 s
      split
      case _ hbad =>
        refine ⟨?_, ?_⟩
        · rw [ht.2.1]
          exact hinv.1
        · rw [ht.1]
          exact hinv.2
      case _ hok =>
        have hstat : (truncate_shift n file.length_bytes file.file_start_address
            ((get_total_written_file_entries s n 0).2 - k).toNat k 0 s).1 =
            DATA_MANAGER_OK := not_not.mp hok
        have hinv2 : InvState (truncate_shift n file.length_bytes file.file_start_address
            ((get_total_written_file_entries s n 0).2 - k).toNat k 0 s).2.1 := by
          refine ⟨?_, ?_⟩
          · rw [ht.2.1]
            exact hinv.1
          · rw [ht.1]
            exact hinv.2
        refine inv_modify hinv2 (fun _ => ?_)
        obtain ⟨h1, h2, h3, h4, hv1, hv2⟩ := hdfile
        rw [eeprom_size_eq] at h3
        obtain ⟨q, hq⟩ := hv1
        have hwq : written_entries_of file = ((q : Nat) : Int) := by
          rw [written_entries_of_eq ⟨h1, h2, by rw [eeprom_size_eq]; omega, h4, ⟨q, hq⟩, hv2⟩]
          rw [hq, Nat.mul_div_cancel_left q (by omega)]
        have hw2 : (get_total_written_file_entries s n 0).2 = ((q : Nat) : Int) := by
          rw [hgw]
          exact hwq
        have hkq : k < (q : Int) := by
          rw [hw2] at hklt
          omega
        have hkk : k.toNat ≤ q := by omega
        have hni := ht.2.2 hstat
        have hni2 : (truncate_shift n file.length_bytes file.file_start_address
            ((get_total_written_file_entries s n 0).2 - k).toNat k 0 s).2.2 =
            ((q - k.toNat : Nat) : Int) := by
          rw [hni, hw2]
          omega
        have hmul : (q - k.toNat) * file.length_bytes ≤ q * file.length_bytes :=
          Nat.mul_le_mul_right _ (by omega)
        have hcomm : q * file.length_bytes = file.length_bytes * q := Nat.mul_comm _ _
        have hnextval : file.file_start_address + (q - k.toNat) * file.length_bytes ≤
            file.next_available_address := by
          omega
        have hu : u16ofInt ((file.file_start_address : Int) +
            ((q - k.toNat : Nat) : Int) * (file.length_bytes : Int)) =
            file.file_start_address + (q - k.toNat) * file.length_bytes := by
          have hc : ((q - k.toNat : Nat) : Int) * (file.length_bytes : Int) =
              (((q - k.toNat) * file.length_bytes : Nat) : Int) := by
            push_cast
            ring
          rw [hc]
          unfold u16ofInt
          omega
        rw [hni2, hu]
        refine ⟨by dsimp only; omega, by dsimp only; omega,
          by dsimp only; rw [eeprom_size_eq]; omega, h4, ?_, hv2⟩
        dsimp only
        have hrw : file.file_start_address + (q - k.toNat) * file.length_bytes -
            file.file_start_address = (q - k.toNat) * file.length_bytes := by omega
        rw [hrw]
        exact Dvd.intro _ (Nat.mul_comm _ _)

lemma inv_add {s : State} (f : File_t) (e : Nat) (hL : 1 ≤ f.length_bytes)
    (hinv : InvState s) : InvState (add_file s f e).2 := by
  unfold add_file get_global_stats
  dsimp only
  split
  · exact hinv
  case _ hspace =>
    obtain ⟨hgok, hdesc⟩ := hinv
    obtain ⟨hg1, hg2, hg3⟩ := hgok
    rw [storage_start_eq] at hg1
    rw [eeprom_size_eq] at hg2 hg3
    have hcast : (e : Int) * (f.length_bytes : Int) =
        ((e * f.length_bytes : Nat) : Int) := by
      push_cast
      ring
    rw [hcast] at hspace ⊢
    have hreq : e * f.length_bytes ≤ s.g_stats.space_remaining := by omega
    have hend : u16ofInt ((s.g_stats.next_available_address : Int) +
        ((e * f.length_bytes : Nat) : Int) - 1) =
        s.g_stats.next_available_address + e * f.length_bytes - 1 := by
      unfold u16ofInt
      omega
    rw [hend]
    have hgnext : u16ofInt
        (((s.g_stats.next_available_address + e * f.length_bytes - 1 : Nat) : Int) + 1) =
        s.g_stats.next_available_address + e * f.length_bytes := by
      unfold u16ofInt
      omega
    rw [hgnext]
    have hspc : u16ofInt ((EEPROM_SIZE_BYTES : Int) -
        ((s.g_stats.next_available_address + e * f.length_bytes : Nat) : Int)) =
        32000 - (s.g_stats.next_available_address + e * f.length_bytes) := by
      unfold u16ofInt
      rw [eeprom_size_eq]
      omega
    rw [hspc]
    have hg1new : GOk ⟨s.g_stats.next_available_address + e * f.length_bytes, 32000 - (s.g_stats.next_available_address + e * f.length_bytes), s.g_stats.initialised⟩ := by
      unfold GOk
      dsimp only
      rw [storage_start_eq, eeprom_size_eq]
      omega
    split
    · exact ⟨hg1new, hdesc⟩
    case _ i0 d0 hscan =>
      refine ⟨hg1new, desc_part_set hdesc (fun _ => ?_)⟩
      refine ⟨Nat.le_refl _, by dsimp only; omega,
        by dsimp only; rw [eeprom_size_eq]; omega, hL, by dsimp only; simp, ?_⟩
      dsimp only
      have hrw : s.g_stats.next_available_address + e * f.length_bytes - 1 + 1 -
          s.g_stats.next_available_address = e * f.length_bytes := by omega
      rw [hrw]
      exact Dvd.intro _ (Nat.mul_comm _ _)

/-- Side conditions under which the operations keep the cursor bound: a
positive record length for add_file, a capacity of at least one record for
the file overwrite_file_entries targets, and a nonnegative truncation
count. -/
def argsOk (op : DMOp) (s : State) : Prop :=
  match op with
  | .addf f _ => 1 ≤ f.length_bytes
  | .appendf _ _ _ => True
  | .overwritef n _ _ => ∀ d, get_file_by_name s n = some d →
      d.length_bytes ≤ d.file_end_address + 1 - d.file_start_address
  | .deletef _ => True
  | .truncatef _ k => 0 ≤ k

/-- C6 (amended): in any state whose valid descriptors satisfy
file_start_address ≤ next_available_address ≤ file_end_address + 1 (and the
allied well-formedness facts of InvState), every public operation preserves
the bound - add_file for a positive record length, truncate_file for a
nonnegative count, and overwrite_file_entries only when the target file can
hold at least one record.  A file created with entries_to_store = 0 cannot:
overwriting it breaks the bound (see the counterexample). -/
theorem cursor_bounds_preserved (op : DMOp) (s : State)
    (hinv : InvState s) (hargs : argsOk op s) : InvState (applyOp op s) := by
  cases op with
  | addf f e => exact inv_add f e hargs hinv
  | appendf n data dl => exact inv_append n data dl hinv
  | overwritef n data dl => exact inv_overwrite n data dl hinv hargs
  | deletef n => exact inv_delete n hinv
  | truncatef n k => exact inv_truncate n k hargs hinv

theorem cursor_bounds_preserved_witness :
    InvState init_state ∧
    argsOk (DMOp.addf file_arg_1 1) init_state ∧
    InvState (applyOp (DMOp.addf file_arg_1 1) init_state) :=
  ⟨by decide, Nat.le_refl 1,
    cursor_bounds_preserved (DMOp.addf file_arg_1 1) init_state (by decide)
      (Nat.le_refl 1)⟩

/-- init, then a file named 1 reserved with entries_to_store = 0. -/
def state_zero_cap : State := (add_file init_state file_arg_1 0).2

/-- The zero-capacity file after overwrite_file_entries wrote one record. -/
def state_zero_cap_ow : State :=
  (overwrite_file_entries state_zero_cap 1 [7] 1).2

/-- C6 counterexample: on the reachable state with a file created with
entries_to_store = 0, the descriptor satisfies the cursor bound, but
overwrite_file_entries (which has no capacity check) moves the cursor to
start + length_bytes = file_end_address + 2, breaking
next_available_address ≤ file_end_address + 1 while the slot stays valid. -/
theorem overwrite_zero_capacity_breaks_bound_cex :
    is_valid_file (state_zero_cap.table.getD 0 zero_file) = true ∧
    (state_zero_cap.table.getD 0 zero_file).next_available_address ≤
      (state_zero_cap.table.getD 0 zero_file).file_end_address + 1 ∧
    is_valid_file (state_zero_cap_ow.table.getD 0 zero_file) = true ∧
    ¬ ((state_zero_cap_ow.table.getD 0 zero_file).next_available_address ≤
      (state_zero_cap_ow.table.getD 0 zero_file).file_end_address + 1) := by
  decide

/-! ## Truncate-head semantics (C7) -/

lemma truncate_shift_zero (n L st : Nat) (cur ni : Int) (s : State) :
    truncate_shift n L st 0 cur ni s = (DATA_MANAGER_OK, s, ni) := rfl

lemma truncate_shift_step (n L st : Nat) (fuel : Nat) (cur ni : Int) (s : State)
    (bs : List Nat)
    (hread : read_file_entry s n cur (L : Int) = (DATA_MANAGER_OK, bs))
    (addr : Nat) (haddr : u16ofInt ((st : Int) + ni * (L : Int)) = addr) :
    truncate_shift n L st (fuel + 1) cur ni s =
      truncate_shift n L st fuel (cur + 1) (ni + 1)
        { s with data := writeData s.data addr bs } := by
  conv_lhs => rw [truncate_shift]
  rw [hread]
  dsimp only
  rw [if_neg (by simp), haddr]

lemma read_entry_success_dl (s : State) (name : Nat) (f : File_t) (idx dl : Int)
    (hlook : get_file_by_name s name = some f)
    (hdl : dl = (f.length_bytes : Int))
    (hidx : ¬ (idx + 1 > written_entries_of f)) :
    read_file_entry s name idx dl =
      (DATA_MANAGER_OK,
        readData s.data (u16ofInt ((f.file_start_address : Int) + idx * dl)) dl.toNat) := by
  subst hdl
  exact read_entry_success s name f idx hlook hidx

/-- C7 (amended): on a file holding four written entries, truncate_file with
count 2 succeeds, after which the written-entry count is 2 and reads at
indices 0 and 1 return the former entries e2 and e3 - provided the
recomputed checksum of the truncated descriptor is nonzero (a zero checksum
self-invalidates the slot; see the counterexample); and for every count at
or above the written-entry count, truncate_file returns exactly what
delete_file_entries returns (cursor reset to the start address). -/
theorem truncate_head_semantics
    (s : State) (name : Nat) (d : File_t)
    (h1 : get_file_by_name s name = some d)
    (hd : DescOk d)
    (hw4 : d.next_available_address = d.file_start_address + 4 * d.length_bytes)
    (hcs : checksum8 { d with next_available_address :=
        d.file_start_address + 2 * d.length_bytes } ≠ 0) :
    (truncate_file s name 2).1 = DATA_MANAGER_OK ∧
    get_total_written_file_entries (truncate_file s name 2).2 name 0 =
      (DATA_MANAGER_OK, 2) ∧
    read_file_entry (truncate_file s name 2).2 name 0 (d.length_bytes : Int) =
      (DATA_MANAGER_OK,
        readData s.data (d.file_start_address + 2 * d.length_bytes) d.length_bytes) ∧
    read_file_entry (truncate_file s name 2).2 name 1 (d.length_bytes : Int) =
      (DATA_MANAGER_OK,
        readData s.data (d.file_start_address + 3 * d.length_bytes) d.length_bytes) ∧
    (∀ k : Int, k ≥ written_entries_of d →
      truncate_file s name k = delete_file_entries s name) := by
  obtain ⟨i, hscan⟩ := get_file_by_name_scan h1
  obtain ⟨hvalid, hname⟩ := get_file_by_name_valid h1
  obtain ⟨hb1, hb2, hb3, hb4, hv1, hv2⟩ := hd
  rw [eeprom_size_eq] at hb3
  have hwd : written_entries_of d = (4 : Int) := by
    rw [written_entries_of_eq ⟨hb1, hb2, by rw [eeprom_size_eq]; omega, hb4, hv1, hv2⟩]
    rw [hw4]
    have h24 : d.file_start_address + 4 * d.length_bytes - d.file_start_address =
        d.length_bytes * 4 := by omega
    rw [h24, Nat.mul_div_cancel_left _ (by omega)]
    norm_num
  have hgw : get_total_written_file_entries s name 0 = (DATA_MANAGER_OK, 4) := by
    unfold get_total_written_file_entries
    rw [h1]
    exact congrArg (fun z => (DATA_MANAGER_OK, z)) hwd
  -- the two copy iterations of the shift loop
  have hread2 : read_file_entry s name 2 (d.length_bytes : Int) =
      (DATA_MANAGER_OK,
        readData s.data (d.file_start_address + 2 * d.length_bytes) d.length_bytes) := by
    rw [read_entry_success s name d 2 h1 (by rw [hwd]; omega)]
    have ha : u16ofInt ((d.file_start_address : Int) + 2 * (d.length_bytes : Int)) =
        d.file_start_address + 2 * d.length_bytes := by
      unfold u16ofInt
      omega
    rw [ha, Int.toNat_ofNat]
  have hlook1 : get_file_by_name { s with data := writeData s.data d.file_start_address (readData s.data (d.file_start_address + 2 * d.length_bytes) d.length_bytes) } name = some d := h1
  have hread3 : read_file_entry { s with data := writeData s.data d.file_start_address (readData s.data (d.file_start_address + 2 * d.length_bytes) d.length_bytes) } name 3 (d.length_bytes : Int) =
      (DATA_MANAGER_OK,
        readData s.data (d.file_start_address + 3 * d.length_bytes) d.length_bytes) := by
    rw [read_entry_success _ name d 3 hlook1 (by rw [hwd]; omega)]
    have ha : u16ofInt ((d.file_start_address : Int) + 3 * (d.length_bytes : Int)) =
        d.file_start_address + 3 * d.length_bytes := by
      unfold u16ofInt
      omega
    rw [ha, Int.toNat_ofNat]
    dsimp only
    rw [readData_writeData_disjoint]
    left
    rw [readData_length]
    omega
  have ha0 : u16ofInt ((d.file_start_address : Int) + 0 * (d.length_bytes : Int)) =
      d.file_start_address := by
    unfold u16ofInt
    omega
  have ha1 : u16ofInt ((d.file_start_address : Int) + (0 + 1) * (d.length_bytes : Int)) =
      d.file_start_address + d.length_bytes := by
    unfold u16ofInt
    omega
  have hloop : truncate_shift name d.length_bytes d.file_start_address 2 2 0 s =
      (DATA_MANAGER_OK,
        (⟨s.g_stats, s.table, writeData (writeData s.data d.file_start_address (readData s.data (d.file_start_address + 2 * d.length_bytes) d.length_bytes)) (d.file_start_address + d.length_bytes) (readData s.data (d.file_start_address + 3 * d.length_bytes) d.length_bytes)⟩ : State),
        2) := by
    rw [truncate_shift_step name d.length_bytes d.file_start_address 1 2 0 s _ hread2 _ ha0]
    rw [truncate_shift_step name d.length_bytes d.file_start_address 0 (2 + 1) (0 + 1) _ _ hread3 _ ha1]
    rw [truncate_shift_zero]
    rfl
  have hge2 : ¬ ((2 : Int) ≥ (4 : Int)) := by omega
  have ha2i : u16ofInt ((d.file_start_address : Int) + 2 * (d.length_bytes : Int)) =
      d.file_start_address + 2 * d.length_bytes := by
    unfold u16ofInt
    omega
  have hscan2 : scan_file (file_pred name)
      (State.table ⟨s.g_stats, s.table, writeData (writeData s.data d.file_start_address (readData s.data (d.file_start_address + 2 * d.length_bytes) d.length_bytes)) (d.file_start_address + d.length_bytes) (readData s.data (d.file_start_address + 3 * d.length_bytes) d.length_bytes)⟩) = some (i, d) := hscan
  have htrunc : truncate_file s name 2 =
      (DATA_MANAGER_OK,
        (⟨s.g_stats, s.table.set i (⟨d.length_bytes, d.file_start_address, d.file_end_address, d.file_start_address + 2 * d.length_bytes, d.filename, checksum8 ⟨d.length_bytes, d.file_start_address, d.file_end_address, d.file_start_address + 2 * d.length_bytes, d.filename, d.valid⟩⟩ : File_t), writeData (writeData s.data d.file_start_address (readData s.data (d.file_start_address + 2 * d.length_bytes) d.length_bytes)) (d.file_start_address + d.length_bytes) (readData s.data (d.file_start_address + 3 * d.length_bytes) d.length_bytes)⟩ : State)) := by
    have hok : ¬ (DATA_MANAGER_OK ≠ DATA_MANAGER_OK) := fun h => h rfl
    have h42 : ((4 : Int) - 2).toNat = 2 := by decide
    simp only [truncate_file, h1, hgw]
    rw [if_neg hok, if_neg hge2, h42, hloop]
    dsimp only
    rw [if_neg hok, ha2i, modify_file_of_scan hscan2]
  have hpredF2 : file_pred name (⟨d.length_bytes, d.file_start_address, d.file_end_address, d.file_start_address + 2 * d.length_bytes, d.filename, checksum8 ⟨d.length_bytes, d.file_start_address, d.file_end_address, d.file_start_address + 2 * d.length_bytes, d.filename, d.valid⟩⟩ : File_t) = true := by
    unfold file_pred
    rw [(is_valid_file_iff _).mpr ⟨hcs, rfl⟩]
    simp [hname]
  have hF2ok : DescOk (⟨d.length_bytes, d.file_start_address, d.file_end_address, d.file_start_address + 2 * d.length_bytes, d.filename, checksum8 ⟨d.length_bytes, d.file_start_address, d.file_end_address, d.file_start_address + 2 * d.length_bytes, d.filename, d.valid⟩⟩ : File_t) := by
    refine ⟨by dsimp only; omega, by dsimp only; omega,
      by dsimp only; rw [eeprom_size_eq]; omega, hb4, ?_, hv2⟩
    dsimp only
    have hrw : d.file_start_address + 2 * d.length_bytes - d.file_start_address =
        d.length_bytes * 2 := by omega
    rw [hrw]
    exact Dvd.intro 2 rfl
  have hlook3 : get_file_by_name (⟨s.g_stats, s.table.set i (⟨d.length_bytes, d.file_start_address, d.file_end_address, d.file_start_address + 2 * d.length_bytes, d.filename, checksum8 ⟨d.length_bytes, d.file_start_address, d.file_end_address, d.file_start_address + 2 * d.length_bytes, d.filename, d.valid⟩⟩ : File_t), writeData (writeData s.data d.file_start_address (readData s.data (d.file_start_address + 2 * d.length_bytes) d.length_bytes)) (d.file_start_address + d.length_bytes) (readData s.data (d.file_start_address + 3 * d.length_bytes) d.length_bytes)⟩ : State) name =
      some (⟨d.length_bytes, d.file_start_address, d.file_end_address, d.file_start_address + 2 * d.length_bytes, d.filename, checksum8 ⟨d.length_bytes, d.file_start_address, d.file_end_address, d.file_start_address + 2 * d.length_bytes, d.filename, d.valid⟩⟩ : File_t) := by
    unfold get_file_by_name
    dsimp only
    rw [scan_file_set hscan _ hpredF2]
    rfl
  have hwF2 : written_entries_of (⟨d.length_bytes, d.file_start_address, d.file_end_address, d.file_start_address + 2 * d.length_bytes, d.filename, checksum8 ⟨d.length_bytes, d.file_start_address, d.file_end_address, d.file_start_address + 2 * d.length_bytes, d.filename, d.valid⟩⟩ : File_t) = (2 : Int) := by
    rw [written_entries_of_eq hF2ok]
    dsimp only
    have hrw : d.file_start_address + 2 * d.length_bytes - d.file_start_address =
        d.length_bytes * 2 := by omega
    rw [hrw, Nat.mul_div_cancel_left _ (by omega)]
    norm_num
  refine ⟨by rw [htrunc], ?_, ?_, ?_, ?_⟩
  · rw [htrunc]
    dsimp only
    unfold get_total_written_file_entries
    rw [hlook3]
    exact congrArg (fun z => (DATA_MANAGER_OK, z)) hwF2
  · rw [htrunc]
    dsimp only
    rw [read_entry_success_dl _ name _ 0 (d.length_bytes : Int) hlook3 rfl
      (by rw [hwF2]; omega)]
    dsimp only
    rw [ha0, Int.toNat_ofNat]
    rw [readData_writeData_disjoint _ _ _ _ _ (Or.inr (by omega))]
    have hB2 := readData_writeData_self s.data d.file_start_address
      (readData s.data (d.file_start_address + 2 * d.length_bytes) d.length_bytes)
    rw [readData_length] at hB2
    rw [hB2]
  · rw [htrunc]
    dsimp only
    rw [read_entry_success_dl _ name _ 1 (d.length_bytes : Int) hlook3 rfl
      (by rw [hwF2]; omega)]
    dsimp only
    have ha1n : u16ofInt ((d.file_start_address : Int) + 1 * (d.length_bytes : Int)) =
        d.file_start_address + d.length_bytes := by
      unfold u16ofInt
      omega
    rw [ha1n, Int.toNat_ofNat]
    have hB3 := readData_writeData_self
      (writeData s.data d.file_start_address
        (readData s.data (d.file_start_address + 2 * d.length_bytes) d.length_bytes))
      (d.file_start_address + d.length_bytes)
      (readData s.data (d.file_start_address + 3 * d.length_bytes) d.length_bytes)
    rw [readData_length] at hB3
    rw [hB3]
  · intro k hk
    rw [hwd] at hk
    have hok2 : ¬ (DATA_MANAGER_OK ≠ DATA_MANAGER_OK) := fun h => h rfl
    simp only [truncate_file, h1, hgw]
    rw [if_neg hok2, if_pos hk]

/-- A valid descriptor with four written one-byte entries at 256..259. -/
def desc_four : File_t := ⟨1, 256, 259, 260, 1, 9⟩

/-- desc_four in slot 0; the data region holds byte a mod 256 at address a,
so the four entries are [0], [1], [2], [3] at 256..259. -/
def state_four : State :=
  ⟨⟨260, 31740, INITIALISED⟩, desc_four :: List.replicate 23 zero_file, fun a => a % 256⟩

theorem truncate_head_semantics_witness :
    get_file_by_name state_four 1 = some desc_four ∧
    DescOk desc_four ∧
    desc_four.next_available_address =
      desc_four.file_start_address + 4 * desc_four.length_bytes ∧
    checksum8 { desc_four with next_available_address :=
      desc_four.file_start_address + 2 * desc_four.length_bytes } ≠ 0 ∧
    ((truncate_file state_four 1 2).1 = DATA_MANAGER_OK ∧
      get_total_written_file_entries (truncate_file state_four 1 2).2 1 0 =
        (DATA_MANAGER_OK, 2) ∧
      read_file_entry (truncate_file state_four 1 2).2 1 0 (desc_four.length_bytes : Int) =
        (DATA_MANAGER_OK, readData state_four.data
          (desc_four.file_start_address + 2 * desc_four.length_bytes)
          desc_four.length_bytes) ∧
      read_file_entry (truncate_file state_four 1 2).2 1 1 (desc_four.length_bytes : Int) =
        (DATA_MANAGER_OK, readData state_four.data
          (desc_four.file_start_address + 3 * desc_four.length_bytes)
          desc_four.length_bytes) ∧
      (∀ k : Int, k ≥ written_entries_of desc_four →
        truncate_file state_four 1 k = delete_file_entries state_four 1)) :=
  ⟨by decide, by decide, by decide, by decide,
    truncate_head_semantics state_four 1 desc_four (by decide) (by decide)
      (by decide) (by decide)⟩

/-- The four-entry file whose filename 250 makes the truncated descriptor's
checksum come out to 0 mod 256. -/
def desc_four_250 : File_t := ⟨1, 256, 259, 260, 250, 2⟩

/-- desc_four_250 in slot 0. -/
def state_four_250 : State :=
  ⟨⟨260, 31740, INITIALISED⟩, desc_four_250 :: List.replicate 23 zero_file, fun _ => 0⟩

/-- C7 counterexample: truncating two of the four entries of the file named
250 succeeds, but the recomputed checksum of the truncated descriptor is 0,
the slot self-invalidates, and both the written-entry count query and the
read of the shifted entry fail with FILE_INVALID_NAME instead of reporting
count 2 and entry e2. -/
theorem truncate_checksum_zero_cex :
    (truncate_file state_four_250 250 2).1 = DATA_MANAGER_OK ∧
    get_total_written_file_entries (truncate_file state_four_250 250 2).2 250 0 =
      (FILE_INVALID_NAME, 0) ∧
    read_file_entry (truncate_file state_four_250 250 2).2 250 0 1 =
      (FILE_INVALID_NAME, []) ∧
    FILE_INVALID_NAME ≠ DATA_MANAGER_OK := by
  decide
